import Mathlib

/-!
Verification of the Gene-Set Differential Comparator implemented by
`compare_gene_lists` in `main.py` of the GeneInsight repository.

The comparison endpoint is modelled as a pure function over an explicit
catalog snapshot (the four tables read from the database inside the
request handler).  Python strings are modelled as lists of characters;
`str.strip` and `str.upper` are modelled character-by-character
(`Char.isWhitespace`, `Char.toUpper`), and pandas column operations
(`isin` filters, `.str.upper()`, set construction from a column)
become the corresponding list/finset operations.
-/

namespace GeneInsight

/-- A Python string, modelled as its list of characters. -/
abbrev Str := List Char

/-- Python `str.upper()` on the identifier alphabet (ASCII letters). -/
def pyUpper (s : Str) : Str := s.map Char.toUpper

/-- Python `str.strip()`: remove leading and trailing whitespace. -/
def pyStrip (s : Str) : Str :=
  (s.dropWhile Char.isWhitespace).rdropWhile Char.isWhitespace

/-- A `Nat` below the surrogate range is a valid scalar value, and
`Char.ofNat` then round-trips through `Char.toNat`. -/
theorem toNat_ofNat_of_lt {n : Nat} (h : n < 0xd800) : (Char.ofNat n).toNat = n := by
  have hv : n.isValidChar := Or.inl h
  unfold Char.ofNat
  rw [dif_pos hv]
  rfl

/-- On a lower-case ASCII letter, `Char.toUpper` subtracts 32 from the code point. -/
theorem toUpper_toNat_of_lower {c : Char} (h : 97 ≤ c.toNat ∧ c.toNat ≤ 122) :
    c.toUpper.toNat = c.toNat - 32 := by
  unfold Char.toUpper
  rw [if_pos h]
  exact toNat_ofNat_of_lt (by omega)

/-- Outside the lower-case ASCII range, `Char.toUpper` is the identity. -/
theorem toUpper_eq_self {c : Char} (h : ¬(97 ≤ c.toNat ∧ c.toNat ≤ 122)) :
    c.toUpper = c := by
  unfold Char.toUpper
  rw [if_neg h]

/-- `Char.toUpper` is idempotent. -/
theorem toUpper_idem (c : Char) : c.toUpper.toUpper = c.toUpper := by
  by_cases h : 97 ≤ c.toNat ∧ c.toNat ≤ 122
  · have h1 : c.toUpper.toNat = c.toNat - 32 := toUpper_toNat_of_lower h
    apply toUpper_eq_self
    rw [h1]; omega
  · rw [toUpper_eq_self h, toUpper_eq_self h]

/-- Characters are equal iff their code points are. -/
theorem char_eq_iff_toNat {c d : Char} : c = d ↔ c.toNat = d.toNat := by
  constructor
  · intro h; rw [h]
  · intro h
    exact Char.eq_of_val_eq (UInt32.toNat.inj h)

/-- Whitespace is characterised by the four code points tested by
`Char.isWhitespace`. -/
theorem isWhitespace_iff_toNat {c : Char} :
    c.isWhitespace = true ↔
      c.toNat = 32 ∨ c.toNat = 9 ∨ c.toNat = 13 ∨ c.toNat = 10 := by
  unfold Char.isWhitespace
  simp only [Bool.or_eq_true, decide_eq_true_eq]
  rw [@char_eq_iff_toNat c ' ', @char_eq_iff_toNat c '\t',
    @char_eq_iff_toNat c '\r', @char_eq_iff_toNat c '\n']
  norm_num [Char.toNat]
  tauto

/-- Upper-casing does not create or destroy whitespace. -/
theorem isWhitespace_toUpper (c : Char) :
    c.toUpper.isWhitespace = c.isWhitespace := by
  by_cases h : 97 ≤ c.toNat ∧ c.toNat ≤ 122
  · have h1 : c.toUpper.toNat = c.toNat - 32 := toUpper_toNat_of_lower h
    have hc : ¬ c.isWhitespace = true := by
      rw [isWhitespace_iff_toNat]; omega
    have hu : ¬ c.toUpper.isWhitespace = true := by
      rw [isWhitespace_iff_toNat, h1]; omega
    rw [Bool.not_eq_true] at hc hu
    rw [hc, hu]
  · rw [toUpper_eq_self h]

/-- `pyUpper` is idempotent. -/
theorem pyUpper_idem (s : Str) : pyUpper (pyUpper s) = pyUpper s := by
  unfold pyUpper
  rw [List.map_map]
  exact List.map_congr_left fun c _ => toUpper_idem c

/-- `pyUpper` preserves emptiness. -/
theorem pyUpper_eq_nil_iff {s : Str} : pyUpper s = [] ↔ s = [] := by
  unfold pyUpper
  exact List.map_eq_nil_iff

/-- If a list survives `dropWhile` unchanged, trimming its tail keeps the
head property, so a further `dropWhile` is still the identity. -/
theorem dropWhile_rdropWhile_eq_self {p : Char → Bool} {x : Str}
    (hx : x.dropWhile p = x) :
    (x.rdropWhile p).dropWhile p = x.rdropWhile p := by
  rcases hp : x.rdropWhile p with _ | ⟨a, s⟩
  · rfl
  · have hpre := List.rdropWhile_prefix p x
    rw [hp] at hpre
    obtain ⟨t, ht⟩ := hpre
    subst ht
    have hlen : 0 < ((a :: s) ++ t).length := by simp
    have ha : ¬ p (((a :: s) ++ t).get ⟨0, hlen⟩) = true :=
      List.dropWhile_eq_self_iff.mp hx hlen
    have hxa : ((a :: s) ++ t).get ⟨0, hlen⟩ = a := rfl
    rw [hxa] at ha
    exact List.dropWhile_cons_of_neg ha

/-- Python `strip` is idempotent. -/
theorem pyStrip_idem (s : Str) : pyStrip (pyStrip s) = pyStrip s := by
  unfold pyStrip
  have hx : (s.dropWhile Char.isWhitespace).dropWhile Char.isWhitespace
      = s.dropWhile Char.isWhitespace := List.dropWhile_idempotent _ _
  rw [dropWhile_rdropWhile_eq_self hx]
  exact List.rdropWhile_idempotent _ _

/-- `dropWhile` on whitespace commutes with upper-casing. -/
theorem dropWhile_pyUpper (s : Str) :
    (pyUpper s).dropWhile Char.isWhitespace
      = pyUpper (s.dropWhile Char.isWhitespace) := by
  unfold pyUpper
  rw [List.dropWhile_map]
  congr 2
  exact funext isWhitespace_toUpper

/-- `rdropWhile` on whitespace commutes with upper-casing. -/
theorem rdropWhile_pyUpper (s : Str) :
    (pyUpper s).rdropWhile Char.isWhitespace
      = pyUpper (s.rdropWhile Char.isWhitespace) := by
  unfold List.rdropWhile
  have h1 : (pyUpper s).reverse = pyUpper s.reverse := by
    unfold pyUpper; rw [List.map_reverse]
  rw [h1, dropWhile_pyUpper]
  unfold pyUpper
  rw [List.map_reverse]

/-- Python `strip` commutes with `upper`. -/
theorem pyStrip_pyUpper (s : Str) : pyStrip (pyUpper s) = pyUpper (pyStrip s) := by
  unfold pyStrip
  rw [dropWhile_pyUpper, rdropWhile_pyUpper]

/-- Input cleaning of `compare_gene_lists`:
`set(s.strip().upper() for s in raw if s.strip())`. -/
def normalize (raw : List Str) : Finset Str :=
  ((raw.filter (fun s => !(pyStrip s).isEmpty)).map (fun s => pyUpper (pyStrip s))).toFinset

/-- Membership in a normalized set. -/
theorem mem_normalize {raw : List Str} {x : Str} :
    x ∈ normalize raw ↔ ∃ s ∈ raw, pyStrip s ≠ [] ∧ x = pyUpper (pyStrip s) := by
  unfold normalize
  simp only [List.mem_toFinset, List.mem_map, List.mem_filter, Bool.not_eq_eq_eq_not,
    Bool.not_true, List.isEmpty_eq_false, ne_eq]
  constructor
  · rintro ⟨s, ⟨hs, hne⟩, hx⟩
    exact ⟨s, hs, hne, hx.symm⟩
  · rintro ⟨s, hs, hne, hx⟩
    exact ⟨s, ⟨hs, hne⟩, hx.symm⟩

/-- Every member of a normalized set is trimmed, non-empty, and upper-case. -/
theorem normalize_clean {raw : List Str} {x : Str} (hx : x ∈ normalize raw) :
    pyStrip x = x ∧ pyUpper x = x ∧ x ≠ [] := by
  obtain ⟨s, _, hne, hxe⟩ := mem_normalize.mp hx
  subst hxe
  refine ⟨?_, ?_, ?_⟩
  · rw [pyStrip_pyUpper, pyStrip_idem]
  · exact pyUpper_idem _
  · rw [ne_eq, pyUpper_eq_nil_iff]
    exact hne

/-- Normalizing a list of already-clean strings just collects them. -/
theorem normalize_of_clean {l : List Str}
    (h : ∀ s ∈ l, pyStrip s = s ∧ pyUpper s = s ∧ s ≠ []) :
    normalize l = l.toFinset := by
  unfold normalize
  have hf : l.filter (fun s => !(pyStrip s).isEmpty) = l := by
    rw [List.filter_eq_self]
    intro s hs
    obtain ⟨h1, _, h3⟩ := h s hs
    rw [Bool.not_eq_eq_eq_not, Bool.not_true, List.isEmpty_eq_false, h1]
    exact h3
  rw [hf]
  have hm : l.map (fun s => pyUpper (pyStrip s)) = l := by
    have := List.map_congr_left (l := l) (f := fun s => pyUpper (pyStrip s)) (g := id)
      (fun s hs => by
        obtain ⟨h1, h2, _⟩ := h s hs
        simp [h1, h2])
    rw [this, List.map_id]
  rw [hm]

/-- One snapshot of the four reference tables read inside the request
handler: `genes (ensembl_gene_id, gene_symbol)`,
`ensembl_to_go (ensembl_gene_id, go_id)`, `go_terms (GO_ID, GO_Term)`, and
`biogrid_ppi (Official Symbol Interactor A, Official Symbol Interactor B)`. -/
structure Catalog where
  genes : List (Str × Str)
  ensemblToGo : List (Str × Str)
  goTerms : List (Str × Str)
  biogridPpi : List (Str × Str)

/-- `set(gene_info_df['ensembl_gene_id'].str.upper())`: the catalog's
canonical identifiers, upper-cased at query time. -/
def dbEnsemblIds (c : Catalog) : Finset Str :=
  (c.genes.map (fun r => pyUpper r.1)).toFinset

/-- `len(ids.intersection(db_ensembl_ids))`. -/
def mappedCount (c : Catalog) (ids : Finset Str) : Nat :=
  (ids ∩ dbEnsemblIds c).card

/-- `set(ensembl_to_go_df[ensembl_to_go_df['ensembl_gene_id'].isin(ids)]['go_id'])`:
the GO terms annotating the submitted identifiers.  Note the catalog's
`ensembl_gene_id` column is used as stored, without upper-casing. -/
def goSet (c : Catalog) (ids : Finset Str) : Finset Str :=
  ((c.ensemblToGo.filter (fun r => decide (r.1 ∈ ids))).map (fun r => r.2)).toFinset

/-- `go_set_a - go_set_b`. -/
def uniqueGoA (c : Catalog) (a b : Finset Str) : Finset Str :=
  goSet c a \ goSet c b

/-- `go_set_b - go_set_a`. -/
def uniqueGoB (c : Catalog) (a b : Finset Str) : Finset Str :=
  goSet c b \ goSet c a

/-- `go_set_a & go_set_b`. -/
def sharedGo (c : Catalog) (a b : Finset Str) : Finset Str :=
  goSet c a ∩ goSet c b

/-- `get_terms_from_ids`: rows of the `go_terms` dictionary whose `GO_ID`
falls in the given partition, in table order; an empty partition
short-circuits to `[]`. -/
def getTermsFromIds (c : Catalog) (ids : Finset Str) : List (Str × Str) :=
  if ids = ∅ then [] else c.goTerms.filter (fun r => decide (r.1 ∈ ids))

/-- `set(gene_info_df[gene_info_df['ensembl_gene_id'].isin(ids)]['gene_symbol'].str.upper())`:
symbols of the submitted identifiers.  The `ensembl_gene_id` column is
matched as stored; only the resulting symbols are upper-cased. -/
def resolveSymbols (c : Catalog) (ids : Finset Str) : Finset Str :=
  ((c.genes.filter (fun r => decide (r.1 ∈ ids))).map (fun r => pyUpper r.2)).toFinset

/-- The BioGRID edge list with both interactor columns upper-cased. -/
def ppiEdges (c : Catalog) : List (Str × Str) :=
  c.biogridPpi.map (fun r => (pyUpper r.1, pyUpper r.2))

/-- `internal_a` / `internal_b`: edges with both endpoints in one symbol set. -/
def internalEdges (edges : List (Str × Str)) (s : Finset Str) : List (Str × Str) :=
  edges.filter (fun r => decide (r.1 ∈ s) && decide (r.2 ∈ s))

/-- `cross_talk`: edges with endpoints in opposite symbol sets, in either
orientation. -/
def crossTalkEdges (edges : List (Str × Str)) (sa sb : Finset Str) :
    List (Str × Str) :=
  edges.filter (fun r =>
    (decide (r.1 ∈ sa) && decide (r.2 ∈ sb)) || (decide (r.1 ∈ sb) && decide (r.2 ∈ sa)))

/-- The `summary` block of the JSON response. -/
structure Summary where
  upRegulatedSubmittedCount : Nat
  downRegulatedSubmittedCount : Nat
  upRegulatedMappedCount : Nat
  downRegulatedMappedCount : Nat
deriving DecidableEq

/-- The `go_comparison` block of the JSON response. -/
structure GoComparison where
  uniqueToUpRegulated : List (Str × Str)
  uniqueToDownRegulated : List (Str × Str)
  shared : List (Str × Str)
deriving DecidableEq

/-- The `ppi_analysis` block of the JSON response. -/
structure PpiAnalysis where
  internalUpRegulated : List (Str × Str)
  internalDownRegulated : List (Str × Str)
  crossTalk : List (Str × Str)
deriving DecidableEq

/-- The full JSON response of `/compare`. -/
structure CompareResponse where
  summary : Summary
  goComparison : GoComparison
  ppiAnalysis : PpiAnalysis
deriving DecidableEq

/-- The body of `compare_gene_lists` after the engine check, as a pure
function of the catalog snapshot and the two raw input lists. -/
def compareGeneLists (c : Catalog) (upRegulated downRegulated : List Str) :
    CompareResponse :=
  let ensemblIdsA := normalize upRegulated
  let ensemblIdsB := normalize downRegulated
  let symbolsA := resolveSymbols c ensemblIdsA
  let symbolsB := resolveSymbols c ensemblIdsB
  let edges := ppiEdges c
  { summary :=
      { upRegulatedSubmittedCount := ensemblIdsA.card
        downRegulatedSubmittedCount := ensemblIdsB.card
        upRegulatedMappedCount := mappedCount c ensemblIdsA
        downRegulatedMappedCount := mappedCount c ensemblIdsB }
    goComparison :=
      { uniqueToUpRegulated := getTermsFromIds c (uniqueGoA c ensemblIdsA ensemblIdsB)
        uniqueToDownRegulated := getTermsFromIds c (uniqueGoB c ensemblIdsA ensemblIdsB)
        shared := getTermsFromIds c (sharedGo c ensemblIdsA ensemblIdsB) }
    ppiAnalysis :=
      { internalUpRegulated := internalEdges edges symbolsA
        internalDownRegulated := internalEdges edges symbolsB
        crossTalk := crossTalkEdges edges symbolsA symbolsB } }

/-- The `/compare` endpoint: a 503 error when the database engine is
absent, otherwise the comparison result.  This is the only rejection the
handler performs before running the comparison. -/
def compareEndpoint (engine : Option Catalog) (upRegulated downRegulated : List Str) :
    Except Nat CompareResponse :=
  match engine with
  | none => Except.error 503
  | some c => Except.ok (compareGeneLists c upRegulated downRegulated)

/-- Claim C3: for every pair of normalized input sets, the three computed
partitions of the annotation terms are disjoint on the unique sides, the
shared partition is the intersection of the two term sets, and each term
set is recovered as its unique partition united with the shared one. -/
theorem goPartitionAlgebra (c : Catalog) (a b : Finset Str) :
    uniqueGoA c a b ∩ uniqueGoB c a b = ∅ ∧
    sharedGo c a b = goSet c a ∩ goSet c b ∧
    goSet c a = uniqueGoA c a b ∪ sharedGo c a b ∧
    goSet c b = uniqueGoB c a b ∪ sharedGo c a b := by
  unfold uniqueGoA uniqueGoB sharedGo
  refine ⟨?_, rfl, ?_, ?_⟩
  · ext x
    simp only [Finset.mem_inter, Finset.mem_sdiff, Finset.not_mem_empty, iff_false]
    tauto
  · rw [Finset.sdiff_union_inter]
  · rw [Finset.inter_comm, Finset.sdiff_union_inter]

/-- Claim C4: each interaction bucket contains exactly the edges of the
full upper-cased edge list satisfying its membership predicate — both
endpoints in A's symbols for internal-A, both in B's for internal-B, and
one endpoint in each (in either orientation) for cross-talk — with the
buckets computed independently from the full list and each bucket a
sublist of the edge list (so iteration order is preserved). -/
theorem ppiBucketSpec (c : Catalog) (a b : Finset Str) :
    (∀ e, e ∈ internalEdges (ppiEdges c) (resolveSymbols c a) ↔
        e ∈ ppiEdges c ∧ e.1 ∈ resolveSymbols c a ∧ e.2 ∈ resolveSymbols c a) ∧
    (∀ e, e ∈ internalEdges (ppiEdges c) (resolveSymbols c b) ↔
        e ∈ ppiEdges c ∧ e.1 ∈ resolveSymbols c b ∧ e.2 ∈ resolveSymbols c b) ∧
    (∀ e, e ∈ crossTalkEdges (ppiEdges c) (resolveSymbols c a) (resolveSymbols c b) ↔
        e ∈ ppiEdges c ∧
          ((e.1 ∈ resolveSymbols c a ∧ e.2 ∈ resolveSymbols c b) ∨
           (e.1 ∈ resolveSymbols c b ∧ e.2 ∈ resolveSymbols c a))) ∧
    List.Sublist (internalEdges (ppiEdges c) (resolveSymbols c a)) (ppiEdges c) ∧
    List.Sublist (internalEdges (ppiEdges c) (resolveSymbols c b)) (ppiEdges c) ∧
    List.Sublist (crossTalkEdges (ppiEdges c) (resolveSymbols c a) (resolveSymbols c b))
      (ppiEdges c) := by
  unfold internalEdges crossTalkEdges
  refine ⟨?_, ?_, ?_, List.filter_sublist _, List.filter_sublist _, List.filter_sublist _⟩
  · intro e
    simp [List.mem_filter]
  · intro e
    simp [List.mem_filter]
  · intro e
    simp [List.mem_filter]

/-- Intersection of term sets is symmetric in the two inputs. -/
theorem sharedGo_comm (c : Catalog) (a b : Finset Str) :
    sharedGo c b a = sharedGo c a b := by
  unfold sharedGo
  rw [Finset.inter_comm]

/-- The cross-talk filter is symmetric in the two symbol sets. -/
theorem crossTalk_comm (edges : List (Str × Str)) (sa sb : Finset Str) :
    crossTalkEdges edges sb sa = crossTalkEdges edges sa sb := by
  unfold crossTalkEdges
  apply List.filter_congr
  intro e _
  rw [Bool.or_comm]

/-- Claim C5: swapping the two input lists exchanges the unique-A and
unique-B labelled outputs and the two internal interaction buckets, and
leaves the shared labelled output and the cross-talk bucket unchanged. -/
theorem swapSymmetry (c : Catalog) (upRegulated downRegulated : List Str) :
    (compareGeneLists c downRegulated upRegulated).goComparison.uniqueToUpRegulated
      = (compareGeneLists c upRegulated downRegulated).goComparison.uniqueToDownRegulated ∧
    (compareGeneLists c downRegulated upRegulated).goComparison.uniqueToDownRegulated
      = (compareGeneLists c upRegulated downRegulated).goComparison.uniqueToUpRegulated ∧
    (compareGeneLists c downRegulated upRegulated).goComparison.shared
      = (compareGeneLists c upRegulated downRegulated).goComparison.shared ∧
    (compareGeneLists c downRegulated upRegulated).ppiAnalysis.internalUpRegulated
      = (compareGeneLists c upRegulated downRegulated).ppiAnalysis.internalDownRegulated ∧
    (compareGeneLists c downRegulated upRegulated).ppiAnalysis.internalDownRegulated
      = (compareGeneLists c upRegulated downRegulated).ppiAnalysis.internalUpRegulated ∧
    (compareGeneLists c downRegulated upRegulated).ppiAnalysis.crossTalk
      = (compareGeneLists c upRegulated downRegulated).ppiAnalysis.crossTalk := by
  exact ⟨rfl, rfl,
    congrArg (getTermsFromIds c)
      (sharedGo_comm c (normalize upRegulated) (normalize downRegulated)),
    rfl, rfl,
    crossTalk_comm (ppiEdges c) (resolveSymbols c (normalize upRegulated))
      (resolveSymbols c (normalize downRegulated))⟩

/-- Claim C6: a term id that is absent from the `go_terms` dictionary
still participates in the unique/shared set algebra (which reads only the
`ensembl_to_go` table, so it is unchanged by any replacement of the
dictionary), but it contributes no row to the labelled output of its
partition; and when `GO_ID` is a unique key of the dictionary, every
partition's labelled output has at most as many rows as the partition has
term ids. -/
theorem orphanedTermLabels (c : Catalog) (p : Finset Str) (t : Str)
    (gt' : List (Str × Str)) (a b : Finset Str)
    (hkey : (c.goTerms.map Prod.fst).Nodup)
    (horph : ∀ r ∈ c.goTerms, r.1 ≠ t) :
    (getTermsFromIds c p).length ≤ p.card ∧
    (∀ r ∈ getTermsFromIds c p, r.1 ≠ t) ∧
    uniqueGoA { c with goTerms := gt' } a b = uniqueGoA c a b ∧
    uniqueGoB { c with goTerms := gt' } a b = uniqueGoB c a b ∧
    sharedGo { c with goTerms := gt' } a b = sharedGo c a b := by
  refine ⟨?_, ?_, rfl, rfl, rfl⟩
  · unfold getTermsFromIds
    by_cases hp : p = ∅
    · rw [if_pos hp]
      exact Nat.zero_le _
    · rw [if_neg hp]
      set kept := c.goTerms.filter (fun r => decide (r.1 ∈ p)) with hkept
      have hsub : List.Sublist (kept.map Prod.fst) (c.goTerms.map Prod.fst) :=
        List.Sublist.map Prod.fst (List.filter_sublist _)
      have hnd : (kept.map Prod.fst).Nodup := List.Nodup.sublist hsub hkey
      have hmem : ∀ x ∈ kept.map Prod.fst, x ∈ p := by
        intro x hx
        obtain ⟨r, hr, hx⟩ := List.mem_map.mp hx
        obtain ⟨_, hrp⟩ := List.mem_filter.mp hr
        rw [← hx]
        exact of_decide_eq_true hrp
      have hss : (kept.map Prod.fst).toFinset ⊆ p := by
        intro x hx
        exact hmem x (List.mem_toFinset.mp hx)
      calc kept.length = (kept.map Prod.fst).length := (List.length_map _ _).symm
        _ = (kept.map Prod.fst).toFinset.card := (List.toFinset_card_of_nodup hnd).symm
        _ ≤ p.card := Finset.card_le_card hss
  · intro r hr
    unfold getTermsFromIds at hr
    by_cases hp : p = ∅
    · rw [if_pos hp] at hr
      cases hr
    · rw [if_neg hp] at hr
      exact horph r (List.mem_filter.mp hr).1

/-- Claim C7: the mapped count is the size of the intersection of the
normalized input set with the catalog's upper-cased identifier set, hence
at most the submitted count; an identifier absent from the catalog leaves
the mapped count unchanged while raising the submitted count, and the
endpoint still returns a result (the count is not a gate). -/
theorem mappedCountSpec (c : Catalog) (x : Finset Str) (z : Str)
    (upRegulated downRegulated : List Str)
    (hz : z ∉ dbEnsemblIds c) :
    mappedCount c x = (x ∩ dbEnsemblIds c).card ∧
    mappedCount c x ≤ x.card ∧
    mappedCount c (insert z x) = mappedCount c x ∧
    (z ∉ x → (insert z x).card = x.card + 1) ∧
    compareEndpoint (some c) upRegulated downRegulated
      = Except.ok (compareGeneLists c upRegulated downRegulated) := by
  refine ⟨rfl, ?_, ?_, ?_, rfl⟩
  · exact Finset.card_le_card (Finset.inter_subset_left)
  · unfold mappedCount
    rw [Finset.insert_inter_of_not_mem hz]
  · intro hzx
    exact Finset.card_insert_of_not_mem hzx

/-- The upper-cased symbols recorded in the catalog for one identifier. -/
def symbolsOfGene (c : Catalog) (g : Str) : Finset Str :=
  ((c.genes.filter (fun r => decide (r.1 = g))).map (fun r => pyUpper r.2)).toFinset

/-- Claim C8: symbol resolution returns exactly the union, over the
submitted identifiers, of the symbols the catalog records for them; an
identifier with no catalog row contributes nothing and causes no error
(adding it to the input leaves the result unchanged). -/
theorem resolveSymbolsSpec (c : Catalog) (ids : Finset Str) (g : Str)
    (hg : ∀ r ∈ c.genes, r.1 ≠ g) :
    resolveSymbols c ids = ids.biUnion (symbolsOfGene c) ∧
    symbolsOfGene c g = ∅ ∧
    resolveSymbols c (insert g ids) = resolveSymbols c ids := by
  refine ⟨?_, ?_, ?_⟩
  · ext s
    unfold resolveSymbols symbolsOfGene
    simp only [List.mem_toFinset, List.mem_map, List.mem_filter, Finset.mem_biUnion,
      decide_eq_true_eq]
    constructor
    · rintro ⟨r, ⟨hr, hrid⟩, hs⟩
      exact ⟨r.1, hrid, r, ⟨hr, rfl⟩, hs⟩
    · rintro ⟨i, hi, r, ⟨hr, hrid⟩, hs⟩
      exact ⟨r, ⟨hr, hrid ▸ hi⟩, hs⟩
  · unfold symbolsOfGene
    have : c.genes.filter (fun r => decide (r.1 = g)) = [] := by
      rw [List.filter_eq_nil_iff]
      intro r hr
      simp only [decide_eq_true_eq]
      exact hg r hr
    rw [this]
    rfl
  · unfold resolveSymbols
    have : c.genes.filter (fun r => decide (r.1 ∈ insert g ids))
        = c.genes.filter (fun r => decide (r.1 ∈ ids)) := by
      apply List.filter_congr
      intro r hr
      simp only [Finset.mem_insert, decide_eq_decide]
      have := hg r hr
      tauto
    rw [this]

/-- Claim C9: normalization is idempotent — normalizing any enumeration of
an already-normalized set returns that set unchanged, and in particular
`normalize (normalize raw) = normalize raw` when the normalized set is fed
back in as a sequence. -/
theorem normalizeIdem (raw : List Str) :
    normalize (normalize raw).toList = normalize raw ∧
    ∀ l : List Str, l.toFinset = normalize raw → normalize l = normalize raw := by
  have key : ∀ l : List Str, l.toFinset = normalize raw → normalize l = normalize raw := by
    intro l hl
    have hclean : ∀ s ∈ l, pyStrip s = s ∧ pyUpper s = s ∧ s ≠ [] := by
      intro s hs
      have : s ∈ normalize raw := by
        rw [← hl]
        exact List.mem_toFinset.mpr hs
      exact normalize_clean this
    rw [normalize_of_clean hclean, hl]
  exact ⟨key _ (Finset.toList_toFinset _), key⟩

/-- `normalize` over a cons: a whitespace-only head is dropped, any other
head is trimmed, upper-cased and inserted. -/
theorem normalize_cons (s : Str) (raw : List Str) :
    normalize (s :: raw)
      = if pyStrip s = [] then normalize raw
        else insert (pyUpper (pyStrip s)) (normalize raw) := by
  unfold normalize
  rw [List.filter_cons]
  by_cases hs : pyStrip s = []
  · rw [if_pos hs]
    have : (!(pyStrip s).isEmpty) = false := by
      rw [Bool.not_eq_eq_eq_not, Bool.not_false, List.isEmpty_iff]
      exact hs
    rw [this]
    simp only [Bool.false_eq_true, if_false]
  · rw [if_neg hs]
    have : (!(pyStrip s).isEmpty) = true := by
      rw [Bool.not_eq_eq_eq_not, Bool.not_true, List.isEmpty_eq_false]
      exact hs
    rw [this]
    simp only [if_true, List.map_cons, List.toFinset_cons]

/-- Claim C10: the submitted counts reported in the summary are the sizes
of the normalized, deduplicated sets: they are bounded by the raw list
length, unchanged by permuting the raw list, and unchanged by adding a
whitespace-only entry or an entry that is a case/whitespace variant of one
already present. -/
theorem submittedCountSpec (c : Catalog) (upRegulated downRegulated l : List Str)
    (w d : Str)
    (hperm : upRegulated.Perm l) (hw : pyStrip w = [])
    (hd : pyUpper (pyStrip d) ∈ normalize upRegulated) :
    (compareGeneLists c upRegulated downRegulated).summary.upRegulatedSubmittedCount
      = (normalize upRegulated).card ∧
    (normalize upRegulated).card ≤ upRegulated.length ∧
    normalize l = normalize upRegulated ∧
    normalize (w :: upRegulated) = normalize upRegulated ∧
    normalize (d :: upRegulated) = normalize upRegulated := by
  refine ⟨rfl, ?_, ?_, ?_, ?_⟩
  · unfold normalize
    calc ((upRegulated.filter (fun s => !(pyStrip s).isEmpty)).map
          (fun s => pyUpper (pyStrip s))).toFinset.card
        ≤ ((upRegulated.filter (fun s => !(pyStrip s).isEmpty)).map
          (fun s => pyUpper (pyStrip s))).length := List.toFinset_card_le _
      _ = (upRegulated.filter (fun s => !(pyStrip s).isEmpty)).length :=
          List.length_map _ _
      _ ≤ upRegulated.length := List.length_filter_le _ _
  · unfold normalize
    apply List.toFinset_eq_of_perm
    exact ((hperm.symm.filter _).map _)
  · rw [normalize_cons, if_pos hw]
  · rw [normalize_cons]
    by_cases hds : pyStrip d = []
    · rw [if_pos hds]
    · rw [if_neg hds]
      exact Finset.insert_eq_self.mpr hd

/-- Shorthand for building modelled strings from literals. -/
def strOf (s : String) : Str := s.toList

/-- Following the spec's wording for the annotation-edge join: the
catalog's `ensembl_gene_id` column is normalized to uppercase before the
membership test.  To be compared with `goSet`, which matches the column
as stored. -/
def goSetSpecCI (c : Catalog) (ids : Finset Str) : Finset Str :=
  ((c.ensemblToGo.filter (fun r => decide (pyUpper r.1 ∈ ids))).map (fun r => r.2)).toFinset

/-- Following the spec's wording for symbol resolution: the catalog's
`ensembl_gene_id` column is normalized to uppercase before the membership
test.  To be compared with `resolveSymbols`. -/
def resolveSymbolsSpecCI (c : Catalog) (ids : Finset Str) : Finset Str :=
  ((c.genes.filter (fun r => decide (pyUpper r.1 ∈ ids))).map (fun r => pyUpper r.2)).toFinset

/-- A catalog whose identifier columns are stored in lower case. -/
def lcCatalog : Catalog :=
  { genes := [(strOf "ensg1", strOf "Sym1")]
    ensemblToGo := [(strOf "ensg1", strOf "GO1")]
    goTerms := [(strOf "GO1", strOf "label one")]
    biogridPpi := [] }

/-- Counterexample to claim C1: with the catalog identifier columns
stored in lower case, the submitted set normalizing to the same
identifier in upper case, the annotation-edge join and the identifier
side of symbol resolution find nothing, although the case-insensitive
semantics stated by the spec finds the annotation and the symbol; the
mapped-id intersection, by contrast, does behave case-insensitively. -/
theorem caseFoldCounterexample :
    goSet lcCatalog (normalize [strOf "ensg1"]) = ∅ ∧
    goSetSpecCI lcCatalog (normalize [strOf "ensg1"]) = {strOf "GO1"} ∧
    resolveSymbols lcCatalog (normalize [strOf "ensg1"]) = ∅ ∧
    resolveSymbolsSpecCI lcCatalog (normalize [strOf "ensg1"]) = {strOf "SYM1"} ∧
    mappedCount lcCatalog (normalize [strOf "ensg1"]) = 1 := by
  refine ⟨?_, ?_, ?_, ?_, ?_⟩ <;> decide

/-- Claim C1 as amended: the submitted sets are normalized to uppercase,
and the mapped-id set and the interaction-edge columns are upper-cased by
the code itself; but the annotation-edge join and the identifier side of
symbol resolution use the catalog columns as stored, so they agree with
the case-insensitive semantics exactly on catalogs whose identifier
columns are already upper-case. -/
theorem caseFoldAmended (c : Catalog) (ids : Finset Str) (raw : List Str)
    (hgo : ∀ r ∈ c.ensemblToGo, pyUpper r.1 = r.1)
    (hgenes : ∀ r ∈ c.genes, pyUpper r.1 = r.1) :
    goSet c ids = goSetSpecCI c ids ∧
    resolveSymbols c ids = resolveSymbolsSpecCI c ids ∧
    (∀ s ∈ dbEnsemblIds c, pyUpper s = s) ∧
    (∀ e ∈ ppiEdges c, pyUpper e.1 = e.1 ∧ pyUpper e.2 = e.2) ∧
    (∀ s ∈ normalize raw, pyUpper s = s) := by
  refine ⟨?_, ?_, ?_, ?_, ?_⟩
  · unfold goSet goSetSpecCI
    congr 1
    apply congrArg
    apply List.filter_congr
    intro r hr
    rw [hgo r hr]
  · unfold resolveSymbols resolveSymbolsSpecCI
    congr 1
    apply congrArg
    apply List.filter_congr
    intro r hr
    rw [hgenes r hr]
  · intro s hs
    obtain ⟨r, _, hrs⟩ := List.mem_map.mp (List.mem_toFinset.mp hs)
    rw [← hrs]
    exact pyUpper_idem _
  · intro e he
    obtain ⟨r, _, hre⟩ := List.mem_map.mp he
    rw [← hre]
    exact ⟨pyUpper_idem _, pyUpper_idem _⟩
  · intro s hs
    exact (normalize_clean hs).2.1

/-- The annotation join over an empty identifier set is empty. -/
theorem goSet_empty (c : Catalog) : goSet c ∅ = ∅ := by
  unfold goSet
  have : c.ensemblToGo.filter (fun r => decide (r.1 ∈ (∅ : Finset Str))) = [] := by
    rw [List.filter_eq_nil_iff]
    intro r _
    simp
  rw [this]
  rfl

/-- Symbol resolution over an empty identifier set is empty. -/
theorem resolveSymbols_empty (c : Catalog) : resolveSymbols c ∅ = ∅ := by
  unfold resolveSymbols
  have : c.genes.filter (fun r => decide (r.1 ∈ (∅ : Finset Str))) = [] := by
    rw [List.filter_eq_nil_iff]
    intro r _
    simp
  rw [this]
  rfl

/-- Internal buckets over an empty symbol set are empty. -/
theorem internalEdges_empty (edges : List (Str × Str)) :
    internalEdges edges ∅ = [] := by
  unfold internalEdges
  rw [List.filter_eq_nil_iff]
  intro e _
  simp

/-- The cross-talk bucket over empty symbol sets is empty. -/
theorem crossTalkEdges_empty (edges : List (Str × Str)) :
    crossTalkEdges edges ∅ ∅ = [] := by
  unfold crossTalkEdges
  rw [List.filter_eq_nil_iff]
  intro e _
  simp

/-- Counterexample to claim C2: a request whose two lists are both empty
is not rejected — the endpoint returns a successful comparison result
(with an all-zero summary), so the comparison does run on two empty
input sets. -/
theorem bothEmptyCounterexample :
    compareEndpoint (some lcCatalog) [] []
      = Except.ok (compareGeneLists lcCatalog [] []) ∧
    (compareGeneLists lcCatalog [] []).summary
      = { upRegulatedSubmittedCount := 0, downRegulatedSubmittedCount := 0
          upRegulatedMappedCount := 0, downRegulatedMappedCount := 0 } := by
  exact ⟨rfl, by decide⟩

/-- Claim C2 as amended: a request in which both lists normalize to empty
sets is not rejected; the handler's only pre-comparison rejection is the
503 service-unavailable error when the database engine is absent.  With
an engine present the comparison runs on the two empty sets and returns
an all-zero summary and empty partitions and buckets. -/
theorem bothEmptyAccepted (c : Catalog) (upRegulated downRegulated : List Str)
    (hup : normalize upRegulated = ∅) (hdown : normalize downRegulated = ∅) :
    compareEndpoint (some c) upRegulated downRegulated
      = Except.ok (compareGeneLists c upRegulated downRegulated) ∧
    (compareGeneLists c upRegulated downRegulated).summary
      = { upRegulatedSubmittedCount := 0, downRegulatedSubmittedCount := 0
          upRegulatedMappedCount := 0, downRegulatedMappedCount := 0 } ∧
    (compareGeneLists c upRegulated downRegulated).goComparison
      = { uniqueToUpRegulated := [], uniqueToDownRegulated := [], shared := [] } ∧
    (compareGeneLists c upRegulated downRegulated).ppiAnalysis
      = { internalUpRegulated := [], internalDownRegulated := [], crossTalk := [] } ∧
    compareEndpoint none upRegulated downRegulated = Except.error 503 := by
  refine ⟨rfl, ?_, ?_, ?_, rfl⟩
  · simp only [compareGeneLists, mappedCount, hup, hdown, Finset.empty_inter,
      Finset.card_empty]
  · simp only [compareGeneLists, uniqueGoA, uniqueGoB, sharedGo, getTermsFromIds,
      hup, hdown, goSet_empty, Finset.sdiff_empty, Finset.empty_inter, ite_true,
      Finset.empty_sdiff]
  · simp only [compareGeneLists, hup, hdown, resolveSymbols_empty,
      internalEdges_empty, crossTalkEdges_empty]

/-- A small well-formed catalog whose identifier columns are upper-case;
`GO3` is an orphaned term id (annotated but missing from the dictionary). -/
def ucCatalog : Catalog :=
  { genes := [(strOf "ENSG1", strOf "Sym1"), (strOf "ENSG2", strOf "Sym2")]
    ensemblToGo := [(strOf "ENSG1", strOf "GO1"), (strOf "ENSG2", strOf "GO2"),
      (strOf "ENSG1", strOf "GO3")]
    goTerms := [(strOf "GO1", strOf "cell cycle"), (strOf "GO2", strOf "apoptosis")]
    biogridPpi := [(strOf "Sym1", strOf "Sym2")] }

/-- Witness for the amended claim C1, at a catalog with upper-case
identifier columns. -/
theorem caseFoldAmendedWitness :
    goSet ucCatalog {strOf "ENSG1"} = goSetSpecCI ucCatalog {strOf "ENSG1"} ∧
    resolveSymbols ucCatalog {strOf "ENSG1"}
      = resolveSymbolsSpecCI ucCatalog {strOf "ENSG1"} ∧
    (∀ s ∈ dbEnsemblIds ucCatalog, pyUpper s = s) ∧
    (∀ e ∈ ppiEdges ucCatalog, pyUpper e.1 = e.1 ∧ pyUpper e.2 = e.2) ∧
    (∀ s ∈ normalize [strOf " ensg1 "], pyUpper s = s) :=
  caseFoldAmended ucCatalog {strOf "ENSG1"} [strOf " ensg1 "] (by decide) (by decide)

/-- Witness for the amended claim C2: a whitespace-only list and an empty
list are both accepted and produce the empty comparison. -/
theorem bothEmptyAcceptedWitness :
    compareEndpoint (some ucCatalog) [strOf "  "] []
      = Except.ok (compareGeneLists ucCatalog [strOf "  "] []) ∧
    (compareGeneLists ucCatalog [strOf "  "] []).summary
      = { upRegulatedSubmittedCount := 0, downRegulatedSubmittedCount := 0
          upRegulatedMappedCount := 0, downRegulatedMappedCount := 0 } ∧
    (compareGeneLists ucCatalog [strOf "  "] []).goComparison
      = { uniqueToUpRegulated := [], uniqueToDownRegulated := [], shared := [] } ∧
    (compareGeneLists ucCatalog [strOf "  "] []).ppiAnalysis
      = { internalUpRegulated := [], internalDownRegulated := [], crossTalk := [] } ∧
    compareEndpoint none [strOf "  "] [] = Except.error 503 :=
  bothEmptyAccepted ucCatalog [strOf "  "] [] (by decide) (by decide)

/-- Witness for claim C6 at the concrete catalog: the partition holding
the orphaned id `GO3` yields fewer labelled rows than term ids. -/
theorem orphanedTermLabelsWitness :
    (getTermsFromIds ucCatalog {strOf "GO1", strOf "GO3"}).length
      ≤ ({strOf "GO1", strOf "GO3"} : Finset Str).card ∧
    (∀ r ∈ getTermsFromIds ucCatalog {strOf "GO1", strOf "GO3"},
      r.1 ≠ strOf "GO3") ∧
    uniqueGoA { ucCatalog with goTerms := [] } {strOf "ENSG1"} ∅
      = uniqueGoA ucCatalog {strOf "ENSG1"} ∅ ∧
    uniqueGoB { ucCatalog with goTerms := [] } {strOf "ENSG1"} ∅
      = uniqueGoB ucCatalog {strOf "ENSG1"} ∅ ∧
    sharedGo { ucCatalog with goTerms := [] } {strOf "ENSG1"} ∅
      = sharedGo ucCatalog {strOf "ENSG1"} ∅ :=
  orphanedTermLabels ucCatalog {strOf "GO1", strOf "GO3"} (strOf "GO3") []
    {strOf "ENSG1"} ∅ (by decide) (by decide)

/-- Witness for claim C7 at the concrete catalog: the unknown id `ZZZZ`
raises the submitted count but not the mapped count. -/
theorem mappedCountSpecWitness :
    mappedCount ucCatalog {strOf "ENSG1"}
      = ({strOf "ENSG1"} ∩ dbEnsemblIds ucCatalog).card ∧
    mappedCount ucCatalog {strOf "ENSG1"} ≤ ({strOf "ENSG1"} : Finset Str).card ∧
    mappedCount ucCatalog (insert (strOf "ZZZZ") {strOf "ENSG1"})
      = mappedCount ucCatalog {strOf "ENSG1"} ∧
    (strOf "ZZZZ" ∉ ({strOf "ENSG1"} : Finset Str) →
      (insert (strOf "ZZZZ") ({strOf "ENSG1"} : Finset Str)).card
        = ({strOf "ENSG1"} : Finset Str).card + 1) ∧
    compareEndpoint (some ucCatalog) [strOf "ZZZZ"] []
      = Except.ok (compareGeneLists ucCatalog [strOf "ZZZZ"] []) :=
  mappedCountSpec ucCatalog {strOf "ENSG1"} (strOf "ZZZZ") [strOf "ZZZZ"] []
    (by decide)

/-- Witness for claim C8 at the concrete catalog: the unknown id `ZZZZ`
contributes no symbol and causes no error. -/
theorem resolveSymbolsSpecWitness :
    resolveSymbols ucCatalog {strOf "ENSG1"}
      = ({strOf "ENSG1"} : Finset Str).biUnion (symbolsOfGene ucCatalog) ∧
    symbolsOfGene ucCatalog (strOf "ZZZZ") = ∅ ∧
    resolveSymbols ucCatalog (insert (strOf "ZZZZ") {strOf "ENSG1"})
      = resolveSymbols ucCatalog {strOf "ENSG1"} :=
  resolveSymbolsSpec ucCatalog {strOf "ENSG1"} (strOf "ZZZZ") (by decide)

/-- Witness for claim C9 at a concrete raw list with case, whitespace and
duplicate variation. -/
theorem normalizeIdemWitness :
    normalize (normalize [strOf " a ", strOf "A"]).toList
      = normalize [strOf " a ", strOf "A"] ∧
    ∀ l : List Str, l.toFinset = normalize [strOf " a ", strOf "A"] →
      normalize l = normalize [strOf " a ", strOf "A"] :=
  normalizeIdem [strOf " a ", strOf "A"]

/-- Witness for claim C10 at a concrete raw list: the submitted count is
that of the normalized set, strictly below the raw length, and invariant
under permutation and under whitespace-only or duplicate entries. -/
theorem submittedCountSpecWitness :
    (compareGeneLists ucCatalog [strOf "a", strOf " A ", strOf " "] []).summary.upRegulatedSubmittedCount
      = (normalize [strOf "a", strOf " A ", strOf " "]).card ∧
    (normalize [strOf "a", strOf " A ", strOf " "]).card
      ≤ ([strOf "a", strOf " A ", strOf " "] : List Str).length ∧
    normalize [strOf " A ", strOf " ", strOf "a"]
      = normalize [strOf "a", strOf " A ", strOf " "] ∧
    normalize (strOf "  " :: [strOf "a", strOf " A ", strOf " "])
      = normalize [strOf "a", strOf " A ", strOf " "] ∧
    normalize (strOf " a " :: [strOf "a", strOf " A ", strOf " "])
      = normalize [strOf "a", strOf " A ", strOf " "] ∧
    (normalize [strOf "a", strOf " A ", strOf " "]).card
      < ([strOf "a", strOf " A ", strOf " "] : List Str).length :=
  ⟨(submittedCountSpec ucCatalog [strOf "a", strOf " A ", strOf " "] []
      [strOf " A ", strOf " ", strOf "a"] (strOf "  ") (strOf " a ")
      (by decide) (by decide) (by decide)).1,
   (submittedCountSpec ucCatalog [strOf "a", strOf " A ", strOf " "] []
      [strOf " A ", strOf " ", strOf "a"] (strOf "  ") (strOf " a ")
      (by decide) (by decide) (by decide)).2.1,
   (submittedCountSpec ucCatalog [strOf "a", strOf " A ", strOf " "] []
      [strOf " A ", strOf " ", strOf "a"] (strOf "  ") (strOf " a ")
      (by decide) (by decide) (by decide)).2.2.1,
   (submittedCountSpec ucCatalog [strOf "a", strOf " A ", strOf " "] []
      [strOf " A ", strOf " ", strOf "a"] (strOf "  ") (strOf " a ")
      (by decide) (by decide) (by decide)).2.2.2.1,
   (submittedCountSpec ucCatalog [strOf "a", strOf " A ", strOf " "] []
      [strOf " A ", strOf " ", strOf "a"] (strOf "  ") (strOf " a ")
      (by decide) (by decide) (by decide)).2.2.2.2,
   by decide⟩

end GeneInsight
